import Mathlib

/-!
Shallow embedding of the Bee Obsidian plugin's sync logic
(`src/main.ts`, `src/unnamed/part_000`, `src/utils/logger.ts`).

Conventions of the embedding:

* A record's `date` field (a string in the source, parsed with `new Date(...)`)
  is modelled by its parse result: `some ms` (epoch milliseconds, UTC) when the
  host `Date` parser accepts it, `none` when it yields an Invalid Date, in
  which case `toISOString()` throws a `RangeError`.
* An HTTP response is modelled by its parsed JSON body: `none` models a falsy
  `response.json` (the `if (!response.json) throw` branch), `some body` a JSON
  object whose optional fields mirror the optional chaining (`?.`) and
  `|| default` reads of the source.
* Audit-log writes performed by `BeeAPI.logToFile` are modelled as a list of
  tagged entries (the source appends formatted text blocks to
  `Bee Daily/api-logs.md`); the claims only inspect which entries were
  appended, never their full text.
* The Obsidian storage adapter's `write(path, content)` replaces the whole
  file content; the file system is a map from path to content.
-/

namespace BeeSync

/-- One fetched daily record (`any` in the source; the sync reads `log.date`
and `entry.content`).  `date` is the `new Date(log.date)` parse result. -/
structure BeeRecord where
  date : Option Int
  content : String
  deriving Repr, DecidableEq

/-- The `meta` object of a daily page response; both fields may be absent
(`data.meta?.currentPage`, `data.meta?.totalPages`). -/
structure BeeMeta where
  currentPage : Option Nat
  totalPages : Option Nat
  deriving Repr, DecidableEq

/-- A parsed JSON body of the daily endpoint: `data.data` and `data.meta`
may each be absent. -/
structure BeeDailyBody where
  data : Option (List BeeRecord)
  meta : Option BeeMeta
  deriving Repr, DecidableEq

/-- A daily-endpoint response: `none` models a falsy `response.json`. -/
abbrev PageResp := Option BeeDailyBody

/-- JavaScript `x || d` on an optionally-present number: `undefined` and `0`
are falsy. -/
def jsOrNat (o : Option Nat) (d : Nat) : Nat :=
  match o with
  | none => d
  | some n => if n = 0 then d else n

/-- One audit-log entry appended by `logToFile` (the source writes a
timestamped text block; we record its kind and essential payload). -/
inductive AuditEntry where
  | request (page : Nat)
  | convRequest
  | response
  | apiError (msg : String)
  deriving Repr, DecidableEq

/-- How a fetch can fail in the embedding. `noMoreResponses` is a model
artifact: the scripted response list ran out while the loop wanted to issue
another request. -/
inductive FetchErr where
  | invalidFormat
  | logFailure
  | noMoreResponses
  deriving Repr, DecidableEq

/-- `BeeAPI.logToFile`, parameterised by the two source variants and by
whether the storage adapter fails.

* `swallow = false` is `src/main.ts` (the `catch` block rethrows:
  `throw error`), `swallow = true` is `src/unnamed/part_000` (the `catch`
  block only writes to the console).
* `sinkFails` says whether the storage adapter raises during the write.

On success the entry is appended to the audit log; on a swallowed failure the
log is unchanged and control returns normally; on a rethrown failure the
caller sees the exception (`Except.error`). -/
def logToFile (swallow sinkFails : Bool) (e : AuditEntry) (audit : List AuditEntry) :
    Except Unit (List AuditEntry) :=
  if sinkFails then
    if swallow then .ok audit else .error ()
  else
    .ok (audit ++ [e])

/-- The `do … while (currentPage <= totalPages)` loop of `BeeAPI.getBeeDaily`.
`responses` scripts the successive HTTP responses (one consumed per request,
in order).  Returns the pages requested (in order), the audit log, and the
outcome.

Each iteration, in source order: `logToFile` for the request (a rethrown log
failure aborts with zero further effects), `requestUrl`, then inside the
`try`: `logToFile` for the response (its failure is caught by the `catch`,
whose own `logToFile` fails again and propagates), the `!response.json`
check (throwing `Invalid response format`, logged in the `catch` and
rethrown), `data.data || []` accumulation, and the pagination update
`currentPage = data.meta?.currentPage || 1; totalPages =
data.meta?.totalPages || 1; currentPage++`. -/
def fetchLoop (swallow sinkFails : Bool) :
    List PageResp → Nat → List Nat → List AuditEntry → List BeeRecord →
    List Nat × List AuditEntry × Except FetchErr (List BeeRecord)
  | [], page, reqs, audit, _ =>
    match logToFile swallow sinkFails (.request page) audit with
    | .error _ => (reqs, audit, .error .logFailure)
    | .ok audit1 => (reqs, audit1, .error .noMoreResponses)
  | resp :: rest, page, reqs, audit, acc =>
    match logToFile swallow sinkFails (.request page) audit with
    | .error _ => (reqs, audit, .error .logFailure)
    | .ok audit1 =>
      let reqs1 := reqs ++ [page]
      match logToFile swallow sinkFails .response audit1 with
      | .error _ => (reqs1, audit1, .error .logFailure)
      | .ok audit2 =>
        match resp with
        | none =>
          match logToFile swallow sinkFails (.apiError "Invalid response format") audit2 with
          | .error _ => (reqs1, audit2, .error .logFailure)
          | .ok audit3 => (reqs1, audit3, .error .invalidFormat)
        | some body =>
          let acc1 := acc ++ body.data.getD []
          let cur := jsOrNat (body.meta.bind (·.currentPage)) 1
          let tot := jsOrNat (body.meta.bind (·.totalPages)) 1
          if cur + 1 ≤ tot then
            fetchLoop swallow sinkFails rest (cur + 1) reqs1 audit2 acc1
          else
            (reqs1, audit2, .ok acc1)

/-- `BeeAPI.getBeeDaily`: start at page 1 with empty accumulators. -/
def getBeeDaily (swallow sinkFails : Bool) (responses : List PageResp) :
    List Nat × List AuditEntry × Except FetchErr (List BeeRecord) :=
  fetchLoop swallow sinkFails responses 1 [] [] []

/-- Civil date (year, month, day) of a day count relative to 1970-01-01
(proleptic Gregorian), as computed by the host's `Date` arithmetic that
underlies `toISOString()`. -/
def civilFromDays (z0 : Int) : Int × Int × Int :=
  let z := z0 + 719468
  let era := Int.ediv z 146097
  let doe := z - era * 146097
  let yoe := Int.ediv (doe - Int.ediv doe 1460 + Int.ediv doe 36524 - Int.ediv doe 146096) 365
  let doy := doe - (365 * yoe + Int.ediv yoe 4 - Int.ediv yoe 100)
  let mp := Int.ediv (5 * doy + 2) 153
  let d := doy - Int.ediv (153 * mp + 2) 5 + 1
  let m := mp + (if mp < 10 then 3 else -9)
  (yoe + era * 400 + (if m ≤ 2 then 1 else 0), m, d)

/-- Left-pad the decimal form of a nonnegative integer with zeros to `w`
digits, as `toISOString` prints date/time fields. -/
def padNum (w : Nat) (n : Int) : String :=
  let s := toString n.toNat
  (String.mk (List.replicate (w - s.length) '0')) ++ s

/-- The `YYYY-MM-DD` part of `new Date(ms).toISOString()`: the UTC calendar
day of the instant, i.e. `toISOString().split('T')[0]`. -/
def toISODate (ms : Int) : String :=
  let c := civilFromDays (Int.ediv ms 86400000)
  padNum 4 c.1 ++ "-" ++ padNum 2 c.2.1 ++ "-" ++ padNum 2 c.2.2

/-- Full `new Date(ms).toISOString()`: `YYYY-MM-DDTHH:MM:SS.mmmZ` in UTC. -/
def toISOStringFull (ms : Int) : String :=
  let r := Int.emod ms 86400000
  toISODate ms ++ "T" ++ padNum 2 (Int.ediv r 3600000) ++ ":" ++
    padNum 2 (Int.emod (Int.ediv r 60000) 60) ++ ":" ++
    padNum 2 (Int.emod (Int.ediv r 1000) 60) ++ "." ++ padNum 3 (Int.emod r 1000) ++ "Z"

/-- JavaScript `Array.prototype.join(sep)`. -/
def joinSep (sep : String) : List String → String
  | [] => ""
  | [x] => x
  | x :: y :: xs => x ++ sep ++ joinSep sep (y :: xs)

/-- One step of the `Map`-based grouping pattern
(`if (!m.has(k)) m.set(k, []); m.get(k)?.push(x)`): append `x` to the group
keyed `k`, creating the group at the end (JS `Map` preserves insertion
order of keys). -/
def insertGroup {α : Type} (k : String) (x : α) :
    List (String × List α) → List (String × List α)
  | [] => [(k, [x])]
  | (k0, xs) :: rest =>
    if k0 = k then (k0, xs ++ [x]) :: rest else (k0, xs) :: insertGroup k x rest

/-- The `forEach` grouping loop: derive each element's key in order; a `none`
key models `toISOString()` throwing on an Invalid Date, which aborts the
whole grouping (the exception propagates out of `forEach`). -/
def groupByKeyAux {α : Type} (key : α → Option String)
    (acc : List (String × List α)) :
    List α → Except Unit (List (String × List α))
  | [] => .ok acc
  | x :: xs =>
    match key x with
    | none => .error ()
    | some k => groupByKeyAux key (insertGroup k x acc) xs

/-- Group a list by a fallible string key (JS `Map` insertion-order map). -/
def groupByKey {α : Type} (key : α → Option String) (xs : List α) :
    Except Unit (List (String × List α)) :=
  groupByKeyAux key [] xs

/-- The grouping step of `syncBeeDaily`:
`new Date(log.date).toISOString().split('T')[0]` as key. -/
def groupByDate (logs : List BeeRecord) :
    Except Unit (List (String × List BeeRecord)) :=
  groupByKey (fun r => r.date.map toISODate) logs

/-- The daily file body:
``# ${dateStr}\n\n${dateEntries.map(entry => entry.content).join('\n\n')}``. -/
def renderDailyGroup (dateStr : String) (entries : List BeeRecord) : String :=
  "# " ++ dateStr ++ "\n\n" ++ joinSep "\n\n" (entries.map (·.content))

/-- The `(path, content)` pairs written by the daily write loop, in group
order: one `${folderPath}/${dateStr}.md` per date group. -/
def dailyWrites (folderPath : String) (gs : List (String × List BeeRecord)) :
    List (String × String) :=
  gs.map (fun g => (folderPath ++ "/" ++ g.1 ++ ".md", renderDailyGroup g.1 g.2))

/-- The document store: a map from path to file content. -/
abbrev FS := String → Option String

/-- `vault.adapter.write(path, content)`: replace the file's whole content. -/
def fsWrite (fs : FS) (p c : String) : FS :=
  fun q => if q = p then some c else fs q

/-- Perform a list of `adapter.write` calls in order. -/
def applyWrites (fs : FS) : List (String × String) → FS
  | [] => fs
  | (p, c) :: ws => applyWrites (fsWrite fs p c) ws

/-- One message of a conversation. -/
structure BeeMessage where
  role : String
  content : String
  deriving Repr, DecidableEq

/-- A conversation record.  `src/main.ts` declares `id`, `created_at`,
`short_summary`, `summary`, `address`, `messages`; the `src/unnamed/part_000`
variant declares the subset `id`, `created_at`, `messages`.  `created_at` is
modelled by its `new Date(...)` parse result, like `BeeRecord.date`. -/
structure BeeConversation where
  id : String
  created_at : Option Int
  short_summary : String
  summary : String
  address : String
  messages : List BeeMessage
  deriving Repr, DecidableEq

/-- The JSON body of a conversations response, as served by a (possibly
cursor-paginated) server: its conversation records, and whatever
`nextCursor` metadata the body carries.  The source casts the whole body to
`BeeConversation[]` and never reads any cursor field. -/
structure ConvBody where
  conversations : List BeeConversation
  nextCursor : Option String
  deriving Repr, DecidableEq

/-- `BeeAPI.getBeeConversations`.  `server` maps the cursor query parameter
of a request (`none` = no cursor parameter) to the response body (`none` =
falsy `response.json`).

The source builds `${baseUrl}/v1/me/conversations` with no query
parameters, calls `requestUrl` once, and returns `response.json as
BeeConversation[]` — there is no loop and no cursor handling.  Returns the
cursor parameters of the requests issued (in order), the audit log, and the
outcome. -/
def getBeeConversations (server : Option String → Option ConvBody) :
    List (Option String) × List AuditEntry × Except FetchErr (List BeeConversation) :=
  match server none with
  | none =>
    ([none], [.convRequest, .response, .apiError "Invalid response format"],
      .error .invalidFormat)
  | some body => ([none], [.convRequest, .response], .ok body.conversations)

/-- One conversation block of `BeePlugin.formatConversationsToMarkdown`
(`src/main.ts`), a template literal rendering the short summary, summary and
address; its tail is a newline followed by the four tabs indenting the
closing backtick. -/
def convBlockMain (c : BeeConversation) : String :=
  "\n# " ++ c.short_summary ++ "\n\n## " ++ c.summary ++ "\n\nAddress: " ++
    c.address ++ "\n\t\t\t\t"

/-- `BeePlugin.formatConversationsToMarkdown` (`src/main.ts`): group the
conversations by UTC day of `created_at` (an Invalid Date throws out of the
`forEach`), then for each date group append
``# Conversations for ${dateStr}\n\n``, the conversation blocks joined with
`'\n---\n'`, and `'\n\n'`. -/
def formatConversationsToMarkdown (convs : List BeeConversation) :
    Except Unit String :=
  match groupByKey (fun c => c.created_at.map toISODate) convs with
  | .error e => .error e
  | .ok gs =>
    .ok ((gs.map (fun g =>
        "# Conversations for " ++ g.1 ++ "\n\n" ++
          joinSep "\n---\n" (g.2.map convBlockMain) ++ "\n\n")).foldl (· ++ ·) "")

/-- One conversation block of the `src/unnamed/part_000` renderer (inline in
its `syncBeeConversations`): ISO timestamp heading, conversation-ID heading,
then one `- **role**: content` bullet per message joined with newlines; the
template's tail is a newline and the four tabs before the closing
backtick.  `toISOString()` throws on an Invalid Date. -/
def convBlockVariant (c : BeeConversation) : Except Unit String :=
  match c.created_at with
  | none => .error ()
  | some ms =>
    .ok ("\n## " ++ toISOStringFull ms ++ "\n\n### Conversation ID: " ++ c.id ++
      "\n\n" ++
      joinSep "\n" (c.messages.map (fun m => "- **" ++ m.role ++ "**: " ++ m.content)) ++
      "\n\t\t\t\t")

/-- JavaScript `Array.prototype.map` with a callback that may throw:
elements are processed left to right and the first exception propagates. -/
def mapExcept {α β : Type} (f : α → Except Unit β) : List α → Except Unit (List β)
  | [] => .ok []
  | x :: xs =>
    match f x with
    | .error e => .error e
    | .ok b =>
      match mapExcept f xs with
      | .error e => .error e
      | .ok bs => .ok (b :: bs)

/-- The full conversations document written by `src/unnamed/part_000`:
``# Bee Conversations\n\n`` followed by the blocks joined with `'\n---\n'`. -/
def renderConversationsVariant (convs : List BeeConversation) :
    Except Unit String :=
  match mapExcept convBlockVariant convs with
  | .error e => .error e
  | .ok blocks => .ok ("# Bee Conversations\n\n" ++ joinSep "\n---\n" blocks)

/-- The externally observable effects of one sync invocation. -/
structure SyncOut where
  /-- Number of HTTP requests issued. -/
  requests : Nat
  /-- Folder paths passed to `ensureFolderExists`. -/
  ensures : List String
  /-- `adapter.write` calls for output files, in order (path, content);
  audit-log appends are tracked separately in `audit`. -/
  outputWrites : List (String × String)
  /-- Audit-log entries appended to `api-logs.md`. -/
  audit : List AuditEntry
  /-- User notifications (`new Notice(...)`), in order. -/
  notices : List String
  deriving Repr, DecidableEq

/-- `BeePlugin.syncBeeDaily` (`src/main.ts`).  An empty API key is falsy
(`!this.settings.apiKey`) and returns after one notice.  Otherwise:
`normalizePath` (modelled as the given path), `ensureFolderExists`, the
starting notice, `getBeeDaily`; on fetch success with a non-empty result,
group by date (an Invalid Date aborts) and write one file per group with a
per-group notice; any thrown error is caught and reported as the single
generic error notice. -/
def syncBeeDaily (apiKey folderPath : String) (responses : List PageResp) :
    SyncOut :=
  if apiKey = "" then
    ⟨0, [], [], [], ["Please set your Bee API key in settings"]⟩
  else
    let r := getBeeDaily false false responses
    let startNotices := ["Starting Bee Daily sync..."]
    match r.2.2 with
    | .error _ =>
      ⟨r.1.length, [folderPath], [], r.2.1,
        startNotices ++ ["Error syncing Bee Days. Check console for details."]⟩
    | .ok logs =>
      if logs.isEmpty then
        ⟨r.1.length, [folderPath], [], r.2.1,
          startNotices ++ ["Bee Daily sync complete!"]⟩
      else
        match groupByDate logs with
        | .error _ =>
          ⟨r.1.length, [folderPath], [], r.2.1,
            startNotices ++ ["Error syncing Bee Days. Check console for details."]⟩
        | .ok gs =>
          ⟨r.1.length, [folderPath], dailyWrites folderPath gs, r.2.1,
            startNotices ++ gs.map (fun g => "Synced entries for " ++ g.1) ++
              ["Bee Daily sync complete!"]⟩

/-- `BeePlugin.syncBeeConversations` (`src/main.ts`).  Empty API key: one
notice, nothing else.  Otherwise fetch once; with a non-empty result, format
(an Invalid Date aborts) and write `${folderPath}/conversations.md`; any
thrown error yields the single generic error notice. -/
def syncBeeConversations (apiKey folderPath : String)
    (server : Option String → Option ConvBody) : SyncOut :=
  if apiKey = "" then
    ⟨0, [], [], [], ["Please set your Bee API key in settings"]⟩
  else
    let r := getBeeConversations server
    match r.2.2 with
    | .error _ =>
      ⟨r.1.length, [folderPath], [], r.2.1,
        ["Error syncing Bee Conversations. Check console for details."]⟩
    | .ok convs =>
      if convs.isEmpty then
        ⟨r.1.length, [folderPath], [], r.2.1, ["Bee Conversations sync complete!"]⟩
      else
        match formatConversationsToMarkdown convs with
        | .error _ =>
          ⟨r.1.length, [folderPath], [], r.2.1,
            ["Error syncing Bee Conversations. Check console for details."]⟩
        | .ok content =>
          ⟨r.1.length, [folderPath], [(folderPath ++ "/conversations.md", content)],
            r.2.1, ["Bee Conversations sync complete!"]⟩

/-- The response sequence of the claim-C1 scenario, starting at page `start`:
the `i`-th listed page body carries `data`, `currentPage = start + i` and
`totalPages = total`. -/
def pageResponsesFrom (start total : Nat) : List (List BeeRecord) → List PageResp
  | [] => []
  | d :: ds =>
    some ⟨some d, some ⟨some start, some total⟩⟩ :: pageResponsesFrom (start + 1) total ds

/-- `N` well-behaved pages: response `k` reports `currentPage = k` and
`totalPages = N`. -/
def pageResponsesFor (datas : List (List BeeRecord)) : List PageResp :=
  pageResponsesFrom 1 datas.length datas

/-- `a` occurs as a contiguous substring of `b`. -/
def infixOf (a b : String) : Prop :=
  ∃ u v, b.data = u ++ a.data ++ v

/-- Boolean substring check (scan all start offsets). -/
def infixB (a b : String) : Bool :=
  (List.range (b.data.length + 1)).any
    (fun i => ((b.data.drop i).take a.data.length) == a.data)

example : toISODate 1735772400000 = "2025-01-01" := by decide
example : toISODate 1735779600000 = "2025-01-02" := by decide
example : toISOStringFull 1735779600000 = "2025-01-02T01:00:00.000Z" := by decide
example : toISODate 0 = "1970-01-01" := by decide
example : toISOStringFull 1709164861234 = "2024-02-29T00:01:01.234Z" := by decide

lemma fetchLoop_cons_some (body : BeeDailyBody) (rest : List PageResp) (page : Nat)
    (reqs : List Nat) (audit : List AuditEntry) (acc : List BeeRecord) :
    fetchLoop false false (some body :: rest) page reqs audit acc =
      if jsOrNat (body.meta.bind (·.currentPage)) 1 + 1
          ≤ jsOrNat (body.meta.bind (·.totalPages)) 1 then
        fetchLoop false false rest (jsOrNat (body.meta.bind (·.currentPage)) 1 + 1)
          (reqs ++ [page]) (audit ++ [.request page] ++ [.response])
          (acc ++ body.data.getD [])
      else
        (reqs ++ [page], audit ++ [.request page] ++ [.response],
          .ok (acc ++ body.data.getD [])) := rfl

lemma fetchLoop_wellBehaved (total : Nat) :
    ∀ (ds : List (List BeeRecord)) (start : Nat) (reqs : List Nat)
      (audit : List AuditEntry) (acc : List BeeRecord),
      1 ≤ start → start + ds.length = total + 1 → ds ≠ [] →
      (fetchLoop false false (pageResponsesFrom start total ds) start reqs audit acc).1
          = reqs ++ List.range' start ds.length ∧
      (fetchLoop false false (pageResponsesFrom start total ds) start reqs audit acc).2.2
          = .ok (acc ++ ds.flatten) := by
  intro ds
  induction ds with
  | nil => intro start reqs audit acc _ _ hne; exact absurd rfl hne
  | cons d ds ih =>
    intro start reqs audit acc hstart hlen _
    simp only [List.length_cons] at hlen
    have hs0 : start ≠ 0 := by omega
    have htot0 : total ≠ 0 := by omega
    rw [pageResponsesFrom, fetchLoop_cons_some]
    simp only [Option.some_bind, jsOrNat, hs0, if_false, htot0, Option.getD_some]
    cases ds with
    | nil =>
      simp only [List.length_nil] at hlen
      rw [if_neg (by omega : ¬ start + 1 ≤ total)]
      simp
    | cons d2 ds2 =>
      have hcond : start + 1 ≤ total := by
        simp only [List.length_cons] at hlen; omega
      rw [if_pos hcond]
      have hlen2 : (start + 1) + (d2 :: ds2).length = total + 1 := by
        simp only [List.length_cons] at hlen ⊢; omega
      obtain ⟨ih1, ih2⟩ := ih (start + 1) (reqs ++ [start])
        (audit ++ [.request start] ++ [.response]) (acc ++ d) (by omega) hlen2 (by simp)
      refine ⟨?_, ?_⟩
      · rw [ih1]
        simp [List.range'_succ, List.append_assoc]
      · rw [ih2, List.flatten_cons]
        simp

/-- C1.  For a sequence of `N` well-behaved page responses (response `k`
reporting `currentPage = k`, `totalPages = N`), `getBeeDaily` issues exactly
the requests for pages `1, …, N` and returns the concatenation of all pages'
`data` arrays in page order. -/
theorem getBeeDaily_pagination (datas : List (List BeeRecord)) (hne : datas ≠ []) :
    (getBeeDaily false false (pageResponsesFor datas)).1 = List.range' 1 datas.length ∧
    (getBeeDaily false false (pageResponsesFor datas)).2.2 = .ok datas.flatten := by
  have := fetchLoop_wellBehaved datas.length datas 1 [] [] []
    (Nat.le_refl 1) (by omega) hne
  simpa [getBeeDaily, pageResponsesFor] using this

/-- C1 witness: two pages, each reporting `totalPages = 2`, are fetched with
exactly the requests `[1, 2]` and concatenated in page order. -/
theorem getBeeDaily_pagination_witness :
    (getBeeDaily false false (pageResponsesFor
        [[⟨some 1735772400000, "rec1"⟩], [⟨some 1735779600000, "rec2"⟩]])).1
      = List.range' 1 2 ∧
    (getBeeDaily false false (pageResponsesFor
        [[⟨some 1735772400000, "rec1"⟩], [⟨some 1735779600000, "rec2"⟩]])).2.2
      = .ok [⟨some 1735772400000, "rec1"⟩, ⟨some 1735779600000, "rec2"⟩] := by
  have := getBeeDaily_pagination
    [[⟨some 1735772400000, "rec1"⟩], [⟨some 1735779600000, "rec2"⟩]] (by decide)
  simpa using this

/-- C2 counterexample.  Against a server implementing the cursor chain
`null → "c1" → null` (the initial request's response carries
`nextCursor = "c1"`, the `"c1"` request's response carries a null cursor),
the claim predicts two requests; `getBeeConversations` issues only the single
initial request and never sends the cursor. -/
theorem getBeeConversations_cursor_cex :
    (getBeeConversations (fun c =>
      match c with
      | none => some ⟨[], some "c1"⟩
      | some s => if s = "c1" then some ⟨[], none⟩ else none)).1 = [none] ∧
    ((getBeeConversations (fun c =>
      match c with
      | none => some ⟨[], some "c1"⟩
      | some s => if s = "c1" then some ⟨[], none⟩ else none)).1.length = 2 → False) := by
  exact ⟨rfl, by decide⟩

/-- C2 amended.  `getBeeConversations` performs no cursor pagination: against
any server it issues exactly one request, carrying no cursor parameter, and
returns that single response's conversation records (an `Invalid response
format` error when the response has no JSON body), ignoring any `nextCursor`
the body carries. -/
theorem getBeeConversations_single_request
    (server : Option String → Option ConvBody) :
    (getBeeConversations server).1 = [none] ∧
    (getBeeConversations server).2.2 =
      (match server none with
        | none => .error .invalidFormat
        | some body => .ok body.conversations) := by
  cases h : server none <;> simp [getBeeConversations, h]

lemma fetchLoop_swallow_lockstep :
    ∀ (responses : List PageResp) (page : Nat) (reqs : List Nat)
      (audit1 audit2 : List AuditEntry) (acc : List BeeRecord),
      (fetchLoop true true responses page reqs audit1 acc).1
          = (fetchLoop true false responses page reqs audit2 acc).1 ∧
      (fetchLoop true true responses page reqs audit1 acc).2.2
          = (fetchLoop true false responses page reqs audit2 acc).2.2 := by
  intro responses
  induction responses with
  | nil => intro page reqs audit1 audit2 acc; simp [fetchLoop, logToFile]
  | cons resp rest ih =>
    intro page reqs audit1 audit2 acc
    cases resp with
    | none => simp [fetchLoop, logToFile]
    | some body =>
      simp only [fetchLoop, logToFile, if_true, if_false]
      split
      · exact ih _ _ _ _ _
      · simp

/-- C3 counterexample.  With a failing storage adapter, `src/main.ts`'s
`logToFile` rethrows, so the very first audit-log write aborts
`getBeeDaily` before any HTTP request, while the same response script
succeeds when the adapter works: the logging error is not swallowed and the
primary operation's outcome changes. -/
theorem logToFile_failure_aborts_fetch_cex :
    getBeeDaily false true
        [some ⟨some [⟨some 0, "a"⟩], some ⟨some 1, some 1⟩⟩]
      = ([], [], .error .logFailure) ∧
    getBeeDaily false false
        [some ⟨some [⟨some 0, "a"⟩], some ⟨some 1, some 1⟩⟩]
      = ([1], [.request 1, .response], .ok [⟨some 0, "a"⟩]) ∧
    ((getBeeDaily false true
        [some ⟨some [⟨some 0, "a"⟩], some ⟨some 1, some 1⟩⟩]).2.2
      = (getBeeDaily false false
        [some ⟨some [⟨some 0, "a"⟩], some ⟨some 1, some 1⟩⟩]).2.2 → False) := by
  refine ⟨rfl, rfl, fun h => ?_⟩
  exact Except.noConfusion h

/-- C3 amended.  In the `src/unnamed/part_000` variant of `logToFile`
(`swallow = true`) a storage failure during audit logging is swallowed: the
fetch issues the same requests and produces the same outcome as when logging
succeeds.  In `src/main.ts` (`swallow = false`) `logToFile` rethrows, so with
a failing adapter `getBeeDaily` aborts at the first audit write, before any
HTTP request. -/
theorem logToFile_swallow_variant (responses : List PageResp) :
    ((getBeeDaily true true responses).1 = (getBeeDaily true false responses).1 ∧
     (getBeeDaily true true responses).2.2 = (getBeeDaily true false responses).2.2) ∧
    getBeeDaily false true responses = ([], [], .error .logFailure) := by
  refine ⟨fetchLoop_swallow_lockstep responses 1 [] [] [] [], ?_⟩
  cases responses <;> rfl

/-- C10.  When the first response has a JSON body with no `meta` object,
`getBeeDaily` defaults `currentPage` to 1 (then increments it to 2) and
`totalPages` to 1, so the loop stops after exactly one request and returns
only that response's records. -/
theorem getBeeDaily_missing_meta (body : BeeDailyBody) (rest : List PageResp)
    (hmeta : body.meta = none) :
    getBeeDaily false false (some body :: rest)
      = ([1], [.request 1, .response], .ok (body.data.getD [])) := by
  simp [getBeeDaily, fetchLoop, logToFile, hmeta, jsOrNat]

/-- C10 witness: a single meta-less page with one record yields one request
and just that record, whatever responses would have followed. -/
theorem getBeeDaily_missing_meta_witness :
    getBeeDaily false false
        (some ⟨some [⟨some 0, "a"⟩], none⟩ :: [some ⟨some [⟨some 1, "b"⟩], none⟩])
      = ([1], [.request 1, .response], .ok [⟨some 0, "a"⟩]) :=
  getBeeDaily_missing_meta ⟨some [⟨some 0, "a"⟩], none⟩ [some ⟨some [⟨some 1, "b"⟩], none⟩] rfl

/-- C5.  Invoking either sync with an empty API key (the only falsy string)
issues no HTTP request, ensures no folder, writes no file, appends no audit
entry, and emits exactly one notification. -/
theorem sync_empty_key_no_effects (folderPath : String) (responses : List PageResp)
    (server : Option String → Option ConvBody) :
    syncBeeDaily "" folderPath responses
      = ⟨0, [], [], [], ["Please set your Bee API key in settings"]⟩ ∧
    syncBeeConversations "" folderPath server
      = ⟨0, [], [], [], ["Please set your Bee API key in settings"]⟩ :=
  ⟨rfl, rfl⟩

lemma fetchLoop_invalidFormat_audit :
    ∀ (responses : List PageResp) (page : Nat) (reqs : List Nat)
      (audit : List AuditEntry) (acc : List BeeRecord),
      (fetchLoop false false responses page reqs audit acc).2.2 = .error .invalidFormat →
      (fetchLoop false false responses page reqs audit acc).2.1.getLast?
        = some (.apiError "Invalid response format") := by
  intro responses
  induction responses with
  | nil => intro page reqs audit acc h; simp [fetchLoop, logToFile] at h
  | cons resp rest ih =>
    intro page reqs audit acc h
    cases resp with
    | none => simp [fetchLoop, logToFile]
    | some body =>
      rw [fetchLoop_cons_some] at h ⊢
      by_cases hc : jsOrNat (body.meta.bind (·.currentPage)) 1 + 1
          ≤ jsOrNat (body.meta.bind (·.totalPages)) 1
      · rw [if_pos hc] at h ⊢
        exact ih _ _ _ _ h
      · rw [if_neg hc] at h
        simp at h

/-- C4 counterexample.  A response whose JSON body is `{}` — it lacks the
top-level `data` field — does not abort the sync: `data.data || []`
defaults to an empty page, the default pagination ends the loop, the sync
reports completion, and no error audit entry is recorded. -/
theorem missing_data_field_no_abort_cex :
    getBeeDaily false false [some ⟨none, none⟩] = ([1], [.request 1, .response], .ok []) ∧
    syncBeeDaily "k" "f" [some ⟨none, none⟩]
      = ⟨1, ["f"], [], [.request 1, .response],
          ["Starting Bee Daily sync...", "Bee Daily sync complete!"]⟩ ∧
    (AuditEntry.apiError "Invalid response format"
        ∈ (syncBeeDaily "k" "f" [some ⟨none, none⟩]).audit → False) := by
  refine ⟨rfl, rfl, ?_⟩
  decide

/-- C4 amended.  A response with no JSON body at all (falsy `response.json`)
aborts the entire sync: the fetch raises `Invalid response format` after
recording an audit entry for the error, so no partial record collection is
returned, zero output files are written, and the only further notice is the
generic error notification.  (A JSON body merely lacking the `data` field is
instead treated as an empty page and does not abort — see the
counterexample.) -/
theorem missing_json_body_aborts_sync :
    (∀ rest : List PageResp,
      getBeeDaily false false (none :: rest)
        = ([1], [.request 1, .response, .apiError "Invalid response format"],
            .error .invalidFormat)) ∧
    (∀ (apiKey folderPath : String) (responses : List PageResp), apiKey ≠ "" →
      (getBeeDaily false false responses).2.2 = .error .invalidFormat →
      (syncBeeDaily apiKey folderPath responses).outputWrites = [] ∧
      (syncBeeDaily apiKey folderPath responses).notices
        = ["Starting Bee Daily sync...",
            "Error syncing Bee Days. Check console for details."] ∧
      (syncBeeDaily apiKey folderPath responses).audit.getLast?
        = some (.apiError "Invalid response format")) := by
  refine ⟨fun rest => rfl, fun apiKey folderPath responses hkey hf => ?_⟩
  have haudit := fetchLoop_invalidFormat_audit responses 1 [] [] [] hf
  simp [syncBeeDaily, hkey, hf]
  exact haudit

/-- C4 witness: with a non-empty key and a first response carrying no JSON
body, the sync writes nothing, ends on the generic error notice, and the
audit log ends with the format-error entry. -/
theorem missing_json_body_aborts_sync_witness :
    (syncBeeDaily "k" "f" [none]).outputWrites = [] ∧
    (syncBeeDaily "k" "f" [none]).notices
      = ["Starting Bee Daily sync...",
          "Error syncing Bee Days. Check console for details."] ∧
    (syncBeeDaily "k" "f" [none]).audit.getLast?
      = some (.apiError "Invalid response format") :=
  missing_json_body_aborts_sync.2 "k" "f" [none] (by decide) rfl

lemma groupByKeyAux_error_of_none {α : Type} (key : α → Option String) :
    ∀ (xs : List α) (acc : List (String × List α)),
      (∃ x ∈ xs, key x = none) → groupByKeyAux key acc xs = .error () := by
  intro xs
  induction xs with
  | nil => intro acc h; rcases h with ⟨x, hx, _⟩; cases hx
  | cons x xs ih =>
    intro acc h
    rcases h with ⟨y, hy, hkeyy⟩
    cases hyx : key x with
    | none => simp [groupByKeyAux, hyx]
    | some k =>
      rcases List.mem_cons.mp hy with rfl | hmem
      · rw [hkeyy] at hyx; cases hyx
      · simp only [groupByKeyAux, hyx]
        exact ih _ ⟨y, hmem, hkeyy⟩

/-- C9.  If the fetch succeeds but some fetched record's date field does not
parse (`new Date(...)` yields an Invalid Date), the grouping `forEach`
throws before the write loop starts: the sync performs zero output-file
writes and ends with only the generic error notification after the starting
notice. -/
theorem invalid_date_aborts_before_writes (apiKey folderPath : String)
    (responses : List PageResp) (logs : List BeeRecord) (r : BeeRecord)
    (hkey : apiKey ≠ "") (hfetch : (getBeeDaily false false responses).2.2 = .ok logs)
    (hr : r ∈ logs) (hdate : r.date = none) :
    (syncBeeDaily apiKey folderPath responses).outputWrites = [] ∧
    (syncBeeDaily apiKey folderPath responses).notices
      = ["Starting Bee Daily sync...",
          "Error syncing Bee Days. Check console for details."] := by
  have hne : logs.isEmpty = false := by
    rw [List.isEmpty_eq_false]
    intro h
    rw [h] at hr
    cases hr
  have hgroup : groupByDate logs = .error () := by
    unfold groupByDate groupByKey
    exact groupByKeyAux_error_of_none _ logs [] ⟨r, hr, by simp [hdate]⟩
  simp [syncBeeDaily, hkey, hfetch, hne, hgroup]

/-- C9 witness: one fetched record whose date fails to parse yields zero
output writes and just the starting and generic error notices. -/
theorem invalid_date_aborts_before_writes_witness :
    (syncBeeDaily "k" "f" [some ⟨some [⟨none, "x"⟩], none⟩]).outputWrites = [] ∧
    (syncBeeDaily "k" "f" [some ⟨some [⟨none, "x"⟩], none⟩]).notices
      = ["Starting Bee Daily sync...",
          "Error syncing Bee Days. Check console for details."] :=
  invalid_date_aborts_before_writes "k" "f" [some ⟨some [⟨none, "x"⟩], none⟩]
    [⟨none, "x"⟩] ⟨none, "x"⟩ (by decide) rfl (by simp) rfl

lemma insertGroup_cons_eq {α : Type} (k : String) (x : α) (xs : List α)
    (rest : List (String × List α)) :
    insertGroup k x ((k, xs) :: rest) = (k, xs ++ [x]) :: rest := by
  simp [insertGroup]

lemma insertGroup_cons_ne {α : Type} (k k0 : String) (x : α) (xs : List α)
    (rest : List (String × List α)) (h : k0 ≠ k) :
    insertGroup k x ((k0, xs) :: rest) = (k0, xs) :: insertGroup k x rest := by
  simp [insertGroup, h]

lemma insertGroup_keys {α : Type} (k : String) (x : α) :
    ∀ gs : List (String × List α),
      (insertGroup k x gs).map Prod.fst =
        if k ∈ gs.map Prod.fst then gs.map Prod.fst else gs.map Prod.fst ++ [k] := by
  intro gs
  induction gs with
  | nil => simp [insertGroup]
  | cons g0 rest ih =>
    obtain ⟨k0, xs⟩ := g0
    by_cases hk : k0 = k
    · subst hk
      rw [insertGroup_cons_eq]
      simp
    · have hcons : (k ∈ k0 :: rest.map Prod.fst) ↔ (k ∈ rest.map Prod.fst) := by
        constructor
        · intro h
          rcases List.mem_cons.mp h with h | h
          · exact absurd h.symm hk
          · exact h
        · exact fun h => List.mem_cons_of_mem _ h
      rw [insertGroup_cons_ne k k0 x xs rest hk]
      simp only [List.map_cons, ih]
      by_cases hmem : k ∈ rest.map Prod.fst
      · rw [if_pos hmem, if_pos (hcons.mpr hmem)]
      · rw [if_neg hmem, if_neg (fun h => hmem (hcons.mp h))]
        simp

lemma insertGroup_nodup {α : Type} (k : String) (x : α)
    (gs : List (String × List α)) (h : (gs.map Prod.fst).Nodup) :
    ((insertGroup k x gs).map Prod.fst).Nodup := by
  rw [insertGroup_keys]
  by_cases hmem : k ∈ gs.map Prod.fst
  · simpa [hmem] using h
  · simp only [if_neg hmem, List.nodup_append]
    exact ⟨h, by simp, by simpa using fun hk => hmem hk⟩

lemma insertGroup_keyOk {α : Type} (key : α → Option String) (k : String) (x : α) :
    ∀ gs : List (String × List α),
      (∀ g ∈ gs, ∀ y ∈ g.2, key y = some g.1) → key x = some k →
      ∀ g ∈ insertGroup k x gs, ∀ y ∈ g.2, key y = some g.1 := by
  intro gs
  induction gs with
  | nil =>
    intro _ hx g hg y hy
    simp only [insertGroup, List.mem_singleton] at hg
    subst hg
    rcases List.mem_singleton.mp hy with rfl
    exact hx
  | cons g0 rest ih =>
    obtain ⟨k0, xs⟩ := g0
    intro hok hx g hg y hy
    by_cases hk : k0 = k
    · subst hk
      rw [insertGroup_cons_eq] at hg
      rcases List.mem_cons.mp hg with rfl | hg
      · rcases List.mem_append.mp hy with hy | hy
        · exact hok (k0, xs) (by simp) y hy
        · rcases List.mem_singleton.mp hy with rfl
          exact hx
      · exact hok g (List.mem_cons_of_mem _ hg) y hy
    · rw [insertGroup_cons_ne k k0 x xs rest hk] at hg
      rcases List.mem_cons.mp hg with rfl | hg
      · exact hok (k0, xs) (by simp) y hy
      · exact ih (fun g' hg' => hok g' (List.mem_cons_of_mem _ hg')) hx g hg y hy

lemma insertGroup_preserves {α : Type} (k : String) (x : α) :
    ∀ gs : List (String × List α), ∀ g ∈ gs, ∀ y ∈ g.2,
      ∃ g' ∈ insertGroup k x gs, g'.1 = g.1 ∧ y ∈ g'.2 := by
  intro gs
  induction gs with
  | nil => intro g hg; cases hg
  | cons g0 rest ih =>
    obtain ⟨k0, xs⟩ := g0
    intro g hg y hy
    by_cases hk : k0 = k
    · subst hk
      rw [insertGroup_cons_eq]
      rcases List.mem_cons.mp hg with rfl | hg
      · exact ⟨(k0, xs ++ [x]), by simp, rfl, List.mem_append_left _ hy⟩
      · exact ⟨g, List.mem_cons_of_mem _ hg, rfl, hy⟩
    · rw [insertGroup_cons_ne k k0 x xs rest hk]
      rcases List.mem_cons.mp hg with rfl | hg
      · exact ⟨(k0, xs), by simp, rfl, hy⟩
      · obtain ⟨g', hg', hfst, hy'⟩ := ih g hg y hy
        exact ⟨g', List.mem_cons_of_mem _ hg', hfst, hy'⟩

lemma insertGroup_mem_new {α : Type} (k : String) (x : α) :
    ∀ gs : List (String × List α), ∃ g ∈ insertGroup k x gs, g.1 = k ∧ x ∈ g.2 := by
  intro gs
  induction gs with
  | nil => exact ⟨(k, [x]), by simp [insertGroup], rfl, by simp⟩
  | cons g0 rest ih =>
    obtain ⟨k0, xs⟩ := g0
    by_cases hk : k0 = k
    · subst hk
      rw [insertGroup_cons_eq]
      exact ⟨(k0, xs ++ [x]), by simp, rfl, by simp⟩
    · rw [insertGroup_cons_ne k k0 x xs rest hk]
      obtain ⟨g', hg', hfst, hx⟩ := ih
      exact ⟨g', List.mem_cons_of_mem _ hg', hfst, hx⟩

lemma insertGroup_sum_len {α : Type} (k : String) (x : α) :
    ∀ gs : List (String × List α),
      ((insertGroup k x gs).map (fun g => g.2.length)).sum =
        (gs.map (fun g => g.2.length)).sum + 1 := by
  intro gs
  induction gs with
  | nil => simp [insertGroup]
  | cons g0 rest ih =>
    obtain ⟨k0, xs⟩ := g0
    by_cases hk : k0 = k
    · subst hk
      rw [insertGroup_cons_eq]
      simp
      omega
    · rw [insertGroup_cons_ne k k0 x xs rest hk]
      simp [ih]
      omega

lemma groupByKeyAux_spec {α : Type} (key : α → Option String) :
    ∀ (xs : List α) (acc gs : List (String × List α)),
      groupByKeyAux key acc xs = .ok gs →
      (acc.map Prod.fst).Nodup →
      (∀ g ∈ acc, ∀ y ∈ g.2, key y = some g.1) →
      ((gs.map Prod.fst).Nodup ∧
       (∀ g ∈ gs, ∀ y ∈ g.2, key y = some g.1) ∧
       (∀ g ∈ acc, ∀ y ∈ g.2, ∃ g' ∈ gs, g'.1 = g.1 ∧ y ∈ g'.2) ∧
       (∀ x ∈ xs, ∃ g ∈ gs, x ∈ g.2) ∧
       (gs.map (fun g => g.2.length)).sum
         = (acc.map (fun g => g.2.length)).sum + xs.length) := by
  intro xs
  induction xs with
  | nil =>
    intro acc gs h hnodup hok
    simp only [groupByKeyAux, Except.ok.injEq] at h
    subst h
    exact ⟨hnodup, hok, fun g hg y hy => ⟨g, hg, rfl, hy⟩, by simp, by simp⟩
  | cons x xs ih =>
    intro acc gs h hnodup hok
    cases hx : key x with
    | none => rw [groupByKeyAux, hx] at h; cases h
    | some k =>
      rw [groupByKeyAux, hx] at h
      obtain ⟨hn, hko, hpres, hall, hsum⟩ :=
        ih (insertGroup k x acc) gs h (insertGroup_nodup k x acc hnodup)
          (insertGroup_keyOk key k x acc hok hx)
      refine ⟨hn, hko, ?_, ?_, ?_⟩
      · intro g hg y hy
        obtain ⟨g', hg', hfst, hy'⟩ := insertGroup_preserves k x acc g hg y hy
        obtain ⟨g'', hg'', hfst', hy''⟩ := hpres g' hg' y hy'
        exact ⟨g'', hg'', hfst'.trans hfst, hy''⟩
      · intro z hz
        rcases List.mem_cons.mp hz with rfl | hz
        · obtain ⟨g', hg', _, hx'⟩ := insertGroup_mem_new k z acc
          obtain ⟨g'', hg'', _, hy''⟩ := hpres g' hg' z hx'
          exact ⟨g'', hg'', hy''⟩
        · exact hall z hz
      · rw [hsum, insertGroup_sum_len]
        simp only [List.length_cons]
        omega

lemma eq_of_fst_eq_of_nodup {β : Type} :
    ∀ gs : List (String × β), (gs.map Prod.fst).Nodup →
      ∀ g ∈ gs, ∀ g' ∈ gs, g.1 = g'.1 → g = g' := by
  intro gs
  induction gs with
  | nil => intro _ g hg; cases hg
  | cons a rest ih =>
    intro hnodup g hg g' hg' hfst
    simp only [List.map_cons, List.nodup_cons] at hnodup
    rcases List.mem_cons.mp hg with rfl | hg <;>
      rcases List.mem_cons.mp hg' with h' | hg'
    · rw [h']
    · exact absurd (hfst ▸ List.mem_map_of_mem Prod.fst hg') hnodup.1
    · exact absurd (hfst ▸ List.mem_map_of_mem Prod.fst hg) (h' ▸ hnodup.1)
    · exact ih hnodup.2 g hg g' hg' hfst

/-- C6.  When grouping succeeds (every record's date parsed), the date
groups have pairwise-distinct keys, every fetched record lies in exactly one
group, each group's key is the UTC calendar day (`toISODate`) of each of its
members' timestamps, and no record is lost or duplicated (the group sizes
sum to the record count). -/
theorem groupByDate_partition (logs : List BeeRecord)
    (gs : List (String × List BeeRecord)) (h : groupByDate logs = .ok gs) :
    (gs.map Prod.fst).Nodup ∧
    (∀ r ∈ logs, ∃! g, g ∈ gs ∧ r ∈ g.2) ∧
    (∀ g ∈ gs, ∀ r ∈ g.2, ∃ ms, r.date = some ms ∧ g.1 = toISODate ms) ∧
    (gs.map (fun g => g.2.length)).sum = logs.length := by
  have h' : groupByKeyAux (fun r => r.date.map toISODate) [] logs = .ok gs := h
  obtain ⟨hn, hko, _, hall, hsum⟩ :=
    groupByKeyAux_spec (fun r => r.date.map toISODate) logs [] gs h' (by simp) (by simp)
  refine ⟨hn, ?_, ?_, by simpa using hsum⟩
  · intro r hr
    obtain ⟨g, hg, hrg⟩ := hall r hr
    refine ⟨g, ⟨hg, hrg⟩, ?_⟩
    rintro g' ⟨hg', hrg'⟩
    have h1 := hko g hg r hrg
    have h2 := hko g' hg' r hrg'
    have h3 : g'.1 = g.1 := Option.some.inj (h2.symm.trans h1)
    exact eq_of_fst_eq_of_nodup gs hn g' hg' g hg h3
  · intro g hg r hrg
    obtain ⟨ms, hms, hkey⟩ := Option.map_eq_some'.mp (hko g hg r hrg)
    exact ⟨ms, hms, hkey.symm⟩

/-- C6 witness: records at `2025-01-01T23:00:00Z` and `2025-01-02T01:00:00Z`
land in the distinct groups `2025-01-01` and `2025-01-02`, and the first
record lies in exactly one group. -/
theorem groupByDate_partition_witness :
    groupByDate [⟨some 1735772400000, "rec1"⟩, ⟨some 1735779600000, "rec2"⟩]
      = .ok [("2025-01-01", [⟨some 1735772400000, "rec1"⟩]),
             ("2025-01-02", [⟨some 1735779600000, "rec2"⟩])] ∧
    (∃! g, g ∈ [("2025-01-01", [(⟨some 1735772400000, "rec1"⟩ : BeeRecord)]),
                ("2025-01-02", [⟨some 1735779600000, "rec2"⟩])] ∧
      (⟨some 1735772400000, "rec1"⟩ : BeeRecord) ∈ g.2) :=
  ⟨rfl,
    (groupByDate_partition
      [⟨some 1735772400000, "rec1"⟩, ⟨some 1735779600000, "rec2"⟩]
      [("2025-01-01", [⟨some 1735772400000, "rec1"⟩]),
       ("2025-01-02", [⟨some 1735779600000, "rec2"⟩])]
      rfl).2.1 ⟨some 1735772400000, "rec1"⟩ (by simp)⟩

lemma applyWrites_find :
    ∀ (ws : List (String × String)) (fs : FS) (q : String),
      applyWrites fs ws q =
        match ws.reverse.find? (fun w => q == w.1) with
        | some w => some w.2
        | none => fs q := by
  intro ws
  induction ws with
  | nil => intro fs q; simp [applyWrites]
  | cons w rest ih =>
    obtain ⟨p, c⟩ := w
    intro fs q
    rw [show applyWrites fs ((p, c) :: rest) = applyWrites (fsWrite fs p c) rest from rfl,
      ih]
    simp only [List.reverse_cons, List.find?_append]
    cases hfind : rest.reverse.find? (fun w => q == w.1) with
    | some w => simp [Option.or]
    | none =>
      by_cases hqp : q = p
      · subst hqp
        simp [Option.or, List.find?, fsWrite]
      · have : (q == p) = false := beq_eq_false_iff_ne.mpr hqp
        simp [Option.or, List.find?, fsWrite, this, hqp]

lemma applyWrites_idem (fs : FS) (ws : List (String × String)) :
    applyWrites (applyWrites fs ws) ws = applyWrites fs ws := by
  funext q
  rw [applyWrites_find, applyWrites_find]
  cases hfind : ws.reverse.find? (fun w => q == w.1) with
  | some w => simp
  | none => simp [applyWrites_find, hfind]

lemma find_reverse_of_nodup :
    ∀ ws : List (String × String), (ws.map Prod.fst).Nodup →
      ∀ p c, (p, c) ∈ ws → ws.reverse.find? (fun w => p == w.1) = some (p, c) := by
  intro ws
  induction ws with
  | nil => intro _ p c hmem; cases hmem
  | cons w rest ih =>
    obtain ⟨p0, c0⟩ := w
    intro hnodup p c hmem
    simp only [List.map_cons, List.nodup_cons] at hnodup
    simp only [List.reverse_cons, List.find?_append]
    rcases List.mem_cons.mp hmem with heq | hmem
    · obtain ⟨rfl, rfl⟩ := Prod.mk.injEq .. ▸ heq
      have hnone : rest.reverse.find? (fun w => p == w.1) = none := by
        rw [List.find?_eq_none]
        intro w hw hbeq
        exact hnodup.1 (beq_iff_eq.mp hbeq ▸
          List.mem_map_of_mem Prod.fst (List.mem_reverse.mp hw))
      simp [hnone, Option.or, List.find?]
    · rw [ih hnodup.2 p c hmem]
      simp [Option.or]

lemma dailyWrites_paths (folderPath : String) (gs : List (String × List BeeRecord)) :
    (dailyWrites folderPath gs).map Prod.fst =
      (gs.map Prod.fst).map (fun k => folderPath ++ "/" ++ k ++ ".md") := by
  simp [dailyWrites, Function.comp]

lemma datePath_injective (folderPath : String) :
    Function.Injective (fun k => folderPath ++ "/" ++ k ++ ".md") := by
  intro k1 k2 h
  apply String.ext
  have hd : ((folderPath ++ "/").data ++ k1.data) ++ ".md".data
      = ((folderPath ++ "/").data ++ k2.data) ++ ".md".data := by
    simpa [String.data_append] using congrArg String.data h
  exact List.append_cancel_left (List.append_cancel_right hd)

/-- C7.  The writer overwrites: applying the daily write list (or the single
conversations-file write) a second time leaves the document store
byte-identical to applying it once, and — for distinct date keys — each
per-date file's final content is exactly the freshly rendered document,
independent of whatever the store previously held at that path (no merge,
no append). -/
theorem writer_idempotent_overwrite :
    (∀ (fs : FS) (folderPath : String) (gs : List (String × List BeeRecord)),
      applyWrites (applyWrites fs (dailyWrites folderPath gs)) (dailyWrites folderPath gs)
        = applyWrites fs (dailyWrites folderPath gs)) ∧
    (∀ (fs : FS) (folderPath content : String),
      applyWrites (applyWrites fs [(folderPath ++ "/conversations.md", content)])
          [(folderPath ++ "/conversations.md", content)]
        = applyWrites fs [(folderPath ++ "/conversations.md", content)]) ∧
    (∀ (fs : FS) (folderPath : String) (gs : List (String × List BeeRecord)),
      (gs.map Prod.fst).Nodup →
      ∀ g ∈ gs,
        applyWrites fs (dailyWrites folderPath gs) (folderPath ++ "/" ++ g.1 ++ ".md")
          = some (renderDailyGroup g.1 g.2)) := by
  refine ⟨fun fs folderPath gs => applyWrites_idem _ _,
    fun fs folderPath content => applyWrites_idem _ _,
    fun fs folderPath gs hnodup g hg => ?_⟩
  have hpaths : ((dailyWrites folderPath gs).map Prod.fst).Nodup := by
    rw [dailyWrites_paths]
    exact (hnodup.map (datePath_injective folderPath))
  have hmem : (folderPath ++ "/" ++ g.1 ++ ".md", renderDailyGroup g.1 g.2)
      ∈ dailyWrites folderPath gs := by
    have := List.mem_map_of_mem
      (fun g => (folderPath ++ "/" ++ g.1 ++ ".md", renderDailyGroup g.1 g.2)) hg
    simpa [dailyWrites] using this
  rw [applyWrites_find, find_reverse_of_nodup (dailyWrites folderPath gs) hpaths _ _ hmem]

/-- C7 witness: writing one concrete date group over an empty store puts the
freshly rendered document at the date's path. -/
theorem writer_idempotent_overwrite_witness :
    applyWrites (fun _ => none)
        (dailyWrites "f" [("2025-01-01", [⟨some 1735772400000, "hello"⟩])])
        ("f" ++ "/" ++ "2025-01-01" ++ ".md")
      = some (renderDailyGroup "2025-01-01" [⟨some 1735772400000, "hello"⟩]) :=
  writer_idempotent_overwrite.2.2 (fun _ => none) "f"
    [("2025-01-01", [⟨some 1735772400000, "hello"⟩])] (by simp)
    ("2025-01-01", [⟨some 1735772400000, "hello"⟩]) (by simp)

lemma infixOf_implies_infixB (a b : String) (h : infixOf a b) : infixB a b = true := by
  obtain ⟨u, v, hb⟩ := h
  rw [infixB, List.any_eq_true]
  refine ⟨u.length, List.mem_range.mpr ?_, ?_⟩
  · rw [hb]
    simp only [List.length_append]
    omega
  · rw [hb, List.append_assoc, List.drop_left, List.take_left]
    exact beq_self_eq_true _

lemma infixOf_refl (a : String) : infixOf a a :=
  ⟨[], [], by simp⟩

lemma infixOf_append_left (c : String) {a b : String} (h : infixOf a b) :
    infixOf a (c ++ b) := by
  obtain ⟨u, v, hb⟩ := h
  exact ⟨c.data ++ u, v, by rw [String.data_append, hb]; simp [List.append_assoc]⟩

lemma infixOf_append_right (c : String) {a b : String} (h : infixOf a b) :
    infixOf a (b ++ c) := by
  obtain ⟨u, v, hb⟩ := h
  exact ⟨u, v ++ c.data, by rw [String.data_append, hb]; simp [List.append_assoc]⟩

lemma infixOf_trans {a b c : String} (h1 : infixOf a b) (h2 : infixOf b c) :
    infixOf a c := by
  obtain ⟨u1, v1, hb⟩ := h1
  obtain ⟨u2, v2, hc⟩ := h2
  exact ⟨u2 ++ u1, v1 ++ v2, by rw [hc, hb]; simp [List.append_assoc]⟩

lemma infixOf_mem_joinSep (sep : String) :
    ∀ (l : List String) (s : String), s ∈ l → infixOf s (joinSep sep l) := by
  intro l
  induction l with
  | nil => intro s hs; cases hs
  | cons x xs ih =>
    intro s hs
    cases xs with
    | nil =>
      rcases List.mem_singleton.mp hs with rfl
      exact infixOf_refl s
    | cons y ys =>
      rcases List.mem_cons.mp hs with rfl | hs
      · rw [joinSep]
        exact infixOf_append_right _ (infixOf_append_right _ (infixOf_refl s))
      · rw [joinSep]
        exact infixOf_append_left _ (ih s hs)

lemma foldl_append_eq :
    ∀ (l : List String) (z : String), l.foldl (· ++ ·) z = z ++ joinSep "" l := by
  intro l
  induction l with
  | nil => intro z; simp [joinSep]
  | cons x xs ih =>
    intro z
    rw [List.foldl_cons, ih]
    cases xs with
    | nil => simp [joinSep]
    | cons y ys =>
      rw [joinSep]
      simp [String.append_assoc, String.append_empty]

lemma infixOf_mem_foldl (l : List String) (s : String) (hs : s ∈ l) :
    infixOf s (l.foldl (· ++ ·) "") := by
  rw [foldl_append_eq]
  exact infixOf_append_left _ (infixOf_mem_joinSep "" l s hs)

lemma groupByKeyAux_ok_of_keys {α : Type} (key : α → Option String) :
    ∀ (xs : List α) (acc : List (String × List α)),
      (∀ x ∈ xs, key x ≠ none) →
      ∃ gs, groupByKeyAux key acc xs = .ok gs := by
  intro xs
  induction xs with
  | nil => intro acc _; exact ⟨acc, rfl⟩
  | cons x xs ih =>
    intro acc h
    cases hx : key x with
    | none => exact absurd hx (h x (by simp))
    | some k =>
      obtain ⟨gs, hgs⟩ :=
        ih (insertGroup k x acc) (fun y hy => h y (List.mem_cons_of_mem _ hy))
      exact ⟨gs, by rw [groupByKeyAux, hx]; exact hgs⟩

lemma mapExcept_ok {α β : Type} (f : α → Except Unit β) :
    ∀ xs : List α, (∀ x ∈ xs, ∃ b, f x = .ok b) →
      ∃ bs, mapExcept f xs = .ok bs ∧ ∀ x ∈ xs, ∃ b ∈ bs, f x = .ok b := by
  intro xs
  induction xs with
  | nil => intro _; exact ⟨[], rfl, by simp⟩
  | cons x xs ih =>
    intro h
    obtain ⟨b, hb⟩ := h x (by simp)
    obtain ⟨bs, hbs, hmem⟩ := ih (fun y hy => h y (List.mem_cons_of_mem _ hy))
    refine ⟨b :: bs, ?_, ?_⟩
    · rw [mapExcept, hb, hbs]
    · intro y hy
      rcases List.mem_cons.mp hy with rfl | hy
      · exact ⟨b, by simp, hb⟩
      · obtain ⟨b', hb', hfb'⟩ := hmem y hy
        exact ⟨b', List.mem_cons_of_mem _ hb', hfb'⟩

/-- C8 counterexample.  `formatConversationsToMarkdown` (`src/main.ts`)
renders a conversation with one message `(user, hello)` without any
transcript: the output contains neither the role-tagged bullet
`- **user**: hello` nor even the message content. -/
theorem formatConversations_no_transcript_cex :
    formatConversationsToMarkdown
        [⟨"id0", some 1735772400000, "short", "longsum", "addr", [⟨"user", "hello"⟩]⟩]
      = .ok "# Conversations for 2025-01-01\n\n\n# short\n\n## longsum\n\nAddress: addr\n\t\t\t\t\n\n" ∧
    ¬ infixOf "- **user**: hello"
        "# Conversations for 2025-01-01\n\n\n# short\n\n## longsum\n\nAddress: addr\n\t\t\t\t\n\n" ∧
    ¬ infixOf "hello"
        "# Conversations for 2025-01-01\n\n\n# short\n\n## longsum\n\nAddress: addr\n\t\t\t\t\n\n" := by
  refine ⟨rfl, fun h => absurd (infixOf_implies_infixB _ _ h) ?_,
    fun h => absurd (infixOf_implies_infixB _ _ h) ?_⟩ <;> decide

/-- C8 amended.  The original claim's rendering shape holds only for the
`src/unnamed/part_000` renderer: its output has one section per conversation
with the conversation's ID heading and a bulleted transcript carrying one
`- **role**: content` line per message.  `src/main.ts`'s
`formatConversationsToMarkdown` instead renders, per conversation, a section
with its short summary, summary and address — no message transcript (see
counterexample). -/
theorem conversation_rendering_sections (convs : List BeeConversation)
    (hne : convs ≠ []) (hdates : ∀ c ∈ convs, c.created_at ≠ none) :
    (∃ out, formatConversationsToMarkdown convs = .ok out ∧
      ∀ c ∈ convs,
        infixOf ("\n# " ++ c.short_summary ++ "\n\n## " ++ c.summary ++
          "\n\nAddress: " ++ c.address) out) ∧
    (∃ out, renderConversationsVariant convs = .ok out ∧
      ∀ c ∈ convs,
        infixOf ("### Conversation ID: " ++ c.id) out ∧
        ∀ m ∈ c.messages,
          infixOf ("- **" ++ m.role ++ "**: " ++ m.content) out) := by
  constructor
  · -- src/main.ts formatter
    have hkeys : ∀ c ∈ convs, (fun c : BeeConversation => c.created_at.map toISODate) c ≠ none := by
      intro c hc
      cases hca : c.created_at with
      | none => exact absurd hca (hdates c hc)
      | some ms => simp [hca]
    obtain ⟨gs, hgs⟩ := groupByKeyAux_ok_of_keys _ convs [] hkeys
    obtain ⟨_, _, _, hall, _⟩ :=
      groupByKeyAux_spec (fun c : BeeConversation => c.created_at.map toISODate)
        convs [] gs hgs (by simp) (by simp)
    refine ⟨_, by rw [formatConversationsToMarkdown, show
        groupByKey (fun c : BeeConversation => c.created_at.map toISODate) convs
          = .ok gs from hgs], ?_⟩
    intro c hc
    obtain ⟨g, hg, hcg⟩ := hall c hc
    have hblock : infixOf ("\n# " ++ c.short_summary ++ "\n\n## " ++ c.summary ++
        "\n\nAddress: " ++ c.address) (convBlockMain c) := by
      rw [convBlockMain]
      exact infixOf_append_right _ (infixOf_refl _)
    have hjoin : infixOf (convBlockMain c)
        (joinSep "\n---\n" (g.2.map convBlockMain)) :=
      infixOf_mem_joinSep _ _ _ (List.mem_map_of_mem convBlockMain hcg)
    have hsection : infixOf (convBlockMain c)
        ("# Conversations for " ++ g.1 ++ "\n\n" ++
          joinSep "\n---\n" (g.2.map convBlockMain) ++ "\n\n") :=
      infixOf_append_right _ (infixOf_append_left _ hjoin)
    have hout : infixOf ("# Conversations for " ++ g.1 ++ "\n\n" ++
        joinSep "\n---\n" (g.2.map convBlockMain) ++ "\n\n")
        ((gs.map (fun g => "# Conversations for " ++ g.1 ++ "\n\n" ++
          joinSep "\n---\n" (g.2.map convBlockMain) ++ "\n\n")).foldl (· ++ ·) "") :=
      infixOf_mem_foldl _ _ (List.mem_map_of_mem _ hg)
    exact infixOf_trans hblock (infixOf_trans hsection hout)
  · -- src/unnamed/part_000 renderer
    have hoks : ∀ c ∈ convs, ∃ b, convBlockVariant c = .ok b := by
      intro c hc
      cases hca : c.created_at with
      | none => exact absurd hca (hdates c hc)
      | some ms => exact ⟨_, by rw [convBlockVariant, hca]⟩
    obtain ⟨blocks, hblocks, hmem⟩ := mapExcept_ok convBlockVariant convs hoks
    refine ⟨_, by rw [renderConversationsVariant, hblocks], ?_⟩
    intro c hc
    obtain ⟨b, hb, hcb⟩ := hmem c hc
    have hbjoin : infixOf b ("# Bee Conversations\n\n" ++ joinSep "\n---\n" blocks) :=
      infixOf_append_left _ (infixOf_mem_joinSep _ _ _ hb)
    cases hca : c.created_at with
    | none => exact absurd hca (hdates c hc)
    | some ms =>
      rw [convBlockVariant, hca] at hcb
      have hbval : b = "\n## " ++ toISOStringFull ms ++ "\n\n### Conversation ID: " ++
          c.id ++ "\n\n" ++
          joinSep "\n"
            (c.messages.map (fun m => "- **" ++ m.role ++ "**: " ++ m.content)) ++
          "\n\t\t\t\t" := by
        cases hcb
        rfl
      constructor
      · refine infixOf_trans ?_ hbjoin
        rw [hbval]
        refine ⟨("\n## " ++ toISOStringFull ms ++ "\n\n").data,
          ("\n\n" ++
            joinSep "\n"
              (c.messages.map (fun m => "- **" ++ m.role ++ "**: " ++ m.content)) ++
            "\n\t\t\t\t").data, ?_⟩
        have hsplit : ("\n\n### Conversation ID: " : String).data
            = ("\n\n" : String).data ++ ("### Conversation ID: " : String).data := rfl
        simp [String.data_append, List.append_assoc, hsplit]
      · intro m hm
        refine infixOf_trans ?_ hbjoin
        rw [hbval]
        have hline : infixOf ("- **" ++ m.role ++ "**: " ++ m.content)
            (joinSep "\n"
              (c.messages.map (fun m => "- **" ++ m.role ++ "**: " ++ m.content))) :=
          infixOf_mem_joinSep _ _ _
            (List.mem_map_of_mem (fun m => "- **" ++ m.role ++ "**: " ++ m.content) hm)
        exact infixOf_append_right _ (infixOf_append_left _ hline)

/-- C8 witness: one conversation with one message. The `part_000` renderer's
output contains the ID heading and the role-tagged bullet; the `main.ts`
formatter's output contains the summary/address section. -/
theorem conversation_rendering_sections_witness :
    (∃ out, formatConversationsToMarkdown
        [⟨"id0", some 1735772400000, "short", "longsum", "addr", [⟨"user", "hi"⟩]⟩]
        = .ok out ∧
      ∀ c ∈ [(⟨"id0", some 1735772400000, "short", "longsum", "addr",
          [⟨"user", "hi"⟩]⟩ : BeeConversation)],
        infixOf ("\n# " ++ c.short_summary ++ "\n\n## " ++ c.summary ++
          "\n\nAddress: " ++ c.address) out) ∧
    (∃ out, renderConversationsVariant
        [⟨"id0", some 1735772400000, "short", "longsum", "addr", [⟨"user", "hi"⟩]⟩]
        = .ok out ∧
      ∀ c ∈ [(⟨"id0", some 1735772400000, "short", "longsum", "addr",
          [⟨"user", "hi"⟩]⟩ : BeeConversation)],
        infixOf ("### Conversation ID: " ++ c.id) out ∧
        ∀ m ∈ c.messages,
          infixOf ("- **" ++ m.role ++ "**: " ++ m.content) out) :=
  conversation_rendering_sections
    [⟨"id0", some 1735772400000, "short", "longsum", "addr", [⟨"user", "hi"⟩]⟩]
    (by decide) (by decide)

end BeeSync
